import Mathlib

/-!
Shallow embedding of the ticket-orchestration core of the `egobogo/aiagents`
repository (files `internal/agent/engmanager.go` and `internal/agent/agent.go`).

Go strings are modelled as `List Char`; Go's fallible calls return
`Except (List Char) α` where the error payload is the Go error message.
External collaborators (the Trello client, the GPT client, the Git client)
are modelled as oracle functions supplied to each operation, so that every
operation is a pure function of its inputs and the oracle answers.
-/

instance {ε α : Type} [DecidableEq ε] [DecidableEq α] : DecidableEq (Except ε α) := fun x y =>
  match x, y with
  | .ok a, .ok b => if h : a = b then .isTrue (by rw [h]) else .isFalse (by simp [h])
  | .error a, .error b => if h : a = b then .isTrue (by rw [h]) else .isFalse (by simp [h])
  | .ok _, .error _ => .isFalse (by simp)
  | .error _, .ok _ => .isFalse (by simp)

/-- Go's `unicode.IsSpace`: true exactly on the Unicode White_Space code
points, which is the predicate `strings.TrimSpace` trims by. -/
def goIsSpace (c : Char) : Bool :=
  let n := c.toNat
  (9 ≤ n && n ≤ 13) || n == 32 || n == 0x85 || n == 0xA0 || n == 0x1680 ||
  (0x2000 ≤ n && n ≤ 0x200A) || n == 0x2028 || n == 0x2029 ||
  n == 0x202F || n == 0x205F || n == 0x3000

/-- Go's `strings.TrimSpace`: drop all leading and trailing white space. -/
def trimSpace (l : List Char) : List Char :=
  ((l.dropWhile goIsSpace).reverse.dropWhile goIsSpace).reverse

/-- Scanner for Go's `strings.Split` with a non-empty separator: scan left to
right; when the separator is a prefix of the remaining input, emit the
accumulated piece and skip the separator (the `skip` counter consumes the
remaining separator characters one at a time, keeping the recursion
structural on the input list). `acc` holds the current piece, reversed. -/
def splitGoAux (sep : List Char) (acc : List Char) : Nat → List Char → List (List Char)
  | _, [] => [acc.reverse]
  | skip+1, _ :: rest => splitGoAux sep acc skip rest
  | 0, c :: rest =>
    if sep.isPrefixOf (c :: rest) then
      acc.reverse :: splitGoAux sep [] (sep.length - 1) rest
    else
      splitGoAux sep (c :: acc) 0 rest

/-- Go's `strings.Split(l, sep)` for a non-empty `sep`. -/
def splitGo (sep l : List Char) : List (List Char) :=
  splitGoAux sep [] 0 l

/-- Go's `strings.Contains(s, sub)`: `sub` occurs as a contiguous substring
of `s`. -/
def containsSub (s sub : List Char) : Bool :=
  (List.range (s.length + 1)).any (fun i => sub.isPrefixOf (s.drop i))

/-- Go's `strings.EqualFold` on the names this code compares:
case-insensitive equality. -/
def equalFold (a b : List Char) : Bool :=
  a.map Char.toLower == b.map Char.toLower

/-- One parsed work item: `engmanager.go` uses the anonymous
`struct{ Title, Description string }`; the spec calls it a TaskBlock. -/
structure TaskBlock where
  title : List Char
  description : List Char
deriving DecidableEq, Repr

/-- The task separator constant of `parseTasksFromResponse`:
the response is split on `"\n@@@@\n"`. -/
def taskDelimiter : List Char := "\n@@@@\n".data

/-- One iteration of the parsing loop of `parseTasksFromResponse`
(engmanager.go lines 122-146): trim the block, drop it when empty,
otherwise split into lines, first line (trimmed) is the title and the
remaining lines rejoined with newlines and trimmed are the description. -/
def parseBlock (block : List Char) : Option TaskBlock :=
  let b := trimSpace block
  if b.isEmpty then none
  else
    match splitGo ['\n'] b with
    | [] => none
    | l0 :: rest =>
      some { title := trimSpace l0
             description := if rest.isEmpty then [] else trimSpace (List.intercalate ['\n'] rest) }

/-- `parseTasksFromResponse` (engmanager.go lines 117-149): split the
response on the delimiter and run the block loop; the Go function always
returns a nil error. -/
def parseTasksFromResponse (response : List Char) : Except (List Char) (List TaskBlock) :=
  .ok ((splitGo taskDelimiter response).filterMap parseBlock)

/-- The block a non-empty segment is turned into, written with
`headD`/`tail` so theorems can name it without destructuring. -/
def mkBlock (b : List Char) : TaskBlock :=
  let t := trimSpace b
  let lines := splitGo ['\n'] t
  { title := trimSpace (lines.headD [])
    description := if lines.tail.isEmpty then [] else trimSpace (List.intercalate ['\n'] lines.tail) }

/-- The constants of `WaitForReply` (engmanager.go lines 153-154):
`pollInterval = 60 * time.Second`, `maxAttempts = 100`. -/
def pollIntervalSeconds : Nat := 60

/-- Maximum number of polling attempts of `WaitForReply`. -/
def waitMaxAttempts : Nat := 100

/-- Observable external actions of one `WaitForReply` run: a comment-list
read, or a sleep of the given number of seconds. -/
inductive PollEvent where
  | read
  | sleep (seconds : Nat)
deriving DecidableEq, Repr

/-- Outcome of one `WaitForReply` run, with the Go error strings. -/
inductive PollResult where
  | reply (comment : List Char)
  | readFailed (err : List Char)
  | timeout (err : List Char)
deriving DecidableEq, Repr

/-- The polling loop of `WaitForReply` (engmanager.go lines 156-169).
`readComments i` is the outcome the base agent's `ReadComments` would give
on the i-th attempt; the function returns the Go result paired with the
trace of reads and sleeps the loop performs, in order. -/
def waitForReplyAux (readComments : Nat → Except (List Char) (List (List Char)))
    (requiredTag : List Char) (attempt : Nat) : Nat → PollResult × List PollEvent
  | 0 => (.timeout ("reply with tag ".data ++ requiredTag ++ " not received after polling".data), [])
  | remaining + 1 =>
    match readComments attempt with
    | .error e => (.readFailed ("failed to read comments: ".data ++ e), [.read])
    | .ok comments =>
      match comments.find? (fun c => containsSub c requiredTag) with
      | some c => (.reply c, [.read])
      | none =>
        let next := waitForReplyAux readComments requiredTag (attempt + 1) remaining
        (next.1, .read :: .sleep pollIntervalSeconds :: next.2)

/-- `WaitForReply` (engmanager.go lines 152-170): poll up to
`waitMaxAttempts` times starting at attempt 1. -/
def waitForReply (readComments : Nat → Except (List Char) (List (List Char)))
    (requiredTag : List Char) : PollResult × List PollEvent :=
  waitForReplyAux readComments requiredTag 1 waitMaxAttempts

/-- The trace left by `n` consecutive unsuccessful poll iterations: each
one is a read followed by a sleep of the poll interval. -/
def failedPolls : Nat → List PollEvent
  | 0 => []
  | n + 1 => PollEvent.read :: PollEvent.sleep pollIntervalSeconds :: failedPolls n

/-- A board member as used by this code: only the username is consulted. -/
structure Member where
  username : List Char
deriving DecidableEq, Repr

/-- A Trello card as used by this code: id, name, description, the id of
the list it is in, and the ids of its assigned members. -/
structure Card where
  id : List Char
  name : List Char
  desc : List Char
  idList : List Char
  idMembers : List (List Char)
deriving DecidableEq, Repr

/-- The member loop of `TicketBelongsToMe` (agent.go lines 60-69): resolve
each assigned member id in order; on a resolution error skip that member
(`continue`); answer true on the first member whose username compares
case-insensitively equal to the agent's name. -/
def belongsAux (getMember : List Char → Except (List Char) Member)
    (agentName : List Char) : List (List Char) → Bool
  | [] => false
  | mid :: rest =>
    match getMember mid with
    | .error _ => belongsAux getMember agentName rest
    | .ok m =>
      if equalFold m.username agentName then true
      else belongsAux getMember agentName rest

/-- `TicketBelongsToMe` (agent.go lines 58-71). -/
def ticketBelongsToMe (getMember : List Char → Except (List Char) Member)
    (agentName : List Char) (card : Card) : Bool :=
  belongsAux getMember agentName card.idMembers

/-- The external calls `GetAssignedTickets` makes, as oracles. -/
structure AgentEnv where
  getMember : List Char → Except (List Char) Member
  getBoard : Except (List Char) Unit
  getCards : Except (List Char) (List Card)
  refreshContext : Except (List Char) Unit

/-- The card loop of `GetAssignedTickets` (agent.go lines 146-158): collect
the cards that belong to the agent in board order; on the first one, run
`RefreshProjectContext` once (the `needToRefreshContext` flag), and abort
with a wrapped error if that refresh fails. -/
def scanAssigned (getMember : List Char → Except (List Char) Member)
    (refreshContext : Except (List Char) Unit) (agentName : List Char) :
    List Card → Bool → Except (List Char) (List Card)
  | [], _ => .ok []
  | card :: rest, needRefresh =>
    if ticketBelongsToMe getMember agentName card then
      if needRefresh then
        match refreshContext with
        | .error e => .error ("failed to refresh context: ".data ++ e)
        | .ok _ => (scanAssigned getMember refreshContext agentName rest false).map (card :: ·)
      else (scanAssigned getMember refreshContext agentName rest false).map (card :: ·)
    else scanAssigned getMember refreshContext agentName rest needRefresh

/-- `GetAssignedTickets` (agent.go lines 135-161). -/
def getAssignedTickets (env : AgentEnv) (agentName : List Char) :
    Except (List Char) (List Card) :=
  match env.getBoard with
  | .error e => .error ("failed to get board: ".data ++ e)
  | .ok _ =>
    match env.getCards with
    | .error e => .error ("failed to get cards: ".data ++ e)
    | .ok cards => scanAssigned env.getMember env.refreshContext agentName cards true

/-- A chat message as in `internal/model`: role and content. -/
structure Message where
  role : List Char
  content : List Char
deriving DecidableEq, Repr

/-- The external calls `LoadGuidanceTickets` makes, as oracles. -/
structure GuidanceEnv where
  getListID : Except (List Char) (List Char)
  getBoard : Except (List Char) Unit
  getCards : Except (List Char) (List Card)
  chatWithMessages : List Message → Except (List Char) (List Char)

/-- The initial contents of the guidance string builder. -/
def guidanceHeader : List Char := "Guidance Tickets:\n".data

/-- The text appended for one card of the IMPORTANT list
(agent.go lines 227-228). -/
def guidanceEntry (card : Card) : List Char :=
  "Title: ".data ++ card.name ++ "\n".data ++ "Details: ".data ++ card.desc ++ "\n\n".data

/-- `LoadGuidanceTickets` (agent.go lines 203-249): the Go result paired
with the list of message batches actually sent to the GPT client. -/
def loadGuidanceTickets (env : GuidanceEnv) :
    Except (List Char) Unit × List (List Message) :=
  match env.getListID with
  | .error e => (.error ("failed to get list ID for IMPORTANT: ".data ++ e), [])
  | .ok listID =>
    match env.getBoard with
    | .error e => (.error ("failed to get board: ".data ++ e), [])
    | .ok _ =>
      match env.getCards with
      | .error e => (.error ("failed to get cards from board: ".data ++ e), [])
      | .ok cards =>
        let guidanceText :=
          cards.foldl (fun acc card => if card.idList = listID then acc ++ guidanceEntry card else acc)
            guidanceHeader
        if guidanceText = guidanceHeader then (.ok (), [])
        else
          let msgs : List Message := [⟨"system".data, guidanceText⟩]
          match env.chatWithMessages msgs with
          | .error e => (.error ("failed to update GPT guidance context: ".data ++ e), [msgs])
          | .ok _ => (.ok (), [msgs])

/-- The child-ticket creation loop of `HandleTicket` (engmanager.go lines
102-110): attempt each parsed task in order; a creation error is logged and
skipped (`continue`), a success is appended. Returns the created cards
paired with the trace of tasks attempted, in order. -/
def createChildTickets (createCard : TaskBlock → Except (List Char) Card) :
    List TaskBlock → List Card × List TaskBlock
  | [] => ([], [])
  | task :: rest =>
    let next := createChildTickets createCard rest
    match createCard task with
    | .error _ => (next.1, task :: next.2)
    | .ok c => (c :: next.1, task :: next.2)

/-- The tail of `HandleTicket` from the decomposition response onward
(engmanager.go lines 87-111): parse the response, resolve the Doing list
id, then run the creation loop. Returns the Go result paired with the
trace of attempted creations. -/
def handleParsedTasks (getDoingListID : Except (List Char) (List Char))
    (createCard : List Char → TaskBlock → Except (List Char) Card)
    (response : List Char) : Except (List Char) (List Card) × List TaskBlock :=
  match parseTasksFromResponse response with
  | .error e => (.error ("failed to parse tasks: ".data ++ e), [])
  | .ok tasks =>
    match getDoingListID with
    | .error e => (.error ("failed to get Doing list ID: ".data ++ e), [])
    | .ok listID =>
      let created := createChildTickets (createCard listID) tasks
      (.ok created.1, created.2)

theorem dropWhile_head_false {p : Char → Bool} :
    ∀ {l : List Char} {c : Char} {rest : List Char}, l.dropWhile p = c :: rest → p c = false := by
  intro l
  induction l with
  | nil => intro c rest h; simp [List.dropWhile] at h
  | cons a as ih =>
    intro c rest h
    by_cases hp : p a
    · rw [List.dropWhile_cons_of_pos hp] at h
      exact ih h
    · rw [List.dropWhile_cons_of_neg hp] at h
      cases h
      simpa using hp

theorem trimSpace_eq_nil_forall {l : List Char} (h : trimSpace l = []) :
    ∀ x ∈ l, goIsSpace x = true := by
  unfold trimSpace at h
  rw [List.reverse_eq_nil_iff] at h
  have hdrop : ∀ x ∈ l.dropWhile goIsSpace, goIsSpace x = true := by
    intro x hx
    exact List.dropWhile_eq_nil_iff.mp h x (by simpa using hx)
  intro x hx
  have hx' : x ∈ l.takeWhile goIsSpace ++ l.dropWhile goIsSpace := by
    rw [List.takeWhile_append_dropWhile]
    exact hx
  rcases List.mem_append.mp hx' with h1 | h2
  · exact List.mem_takeWhile_imp h1
  · exact hdrop x h2

theorem trimSpace_ne_nil_of_mem {l : List Char} {x : Char}
    (hx : x ∈ l) (hs : goIsSpace x = false) : trimSpace l ≠ [] := by
  intro h
  rw [trimSpace_eq_nil_forall h x hx] at hs
  cases hs

theorem trimSpace_head_not_space {l : List Char} {c : Char} {rest : List Char}
    (h : trimSpace l = c :: rest) : goIsSpace c = false := by
  have h1 : (l.dropWhile goIsSpace).reverse.dropWhile goIsSpace = rest.reverse ++ [c] := by
    have h0 := congrArg List.reverse h
    rw [trimSpace] at h0
    simpa using h0
  have h3 := List.takeWhile_append_dropWhile goIsSpace (l.dropWhile goIsSpace).reverse
  rw [h1] at h3
  have h4 := congrArg List.reverse h3
  rw [List.reverse_reverse] at h4
  simp only [List.reverse_append, List.reverse_reverse, List.reverse_cons, List.reverse_nil,
    List.nil_append, List.append_assoc, List.cons_append, List.singleton_append] at h4
  exact dropWhile_head_false h4.symm

theorem splitGoAux_shape (sep : List Char) :
    ∀ (l acc : List Char), ∃ p rest, splitGoAux sep acc 0 l = (acc.reverse ++ p) :: rest := by
  intro l
  induction l with
  | nil => intro acc; exact ⟨[], [], by simp [splitGoAux]⟩
  | cons c ls ih =>
    intro acc
    by_cases h : sep.isPrefixOf (c :: ls)
    · exact ⟨[], splitGoAux sep [] (sep.length - 1) ls, by simp [splitGoAux, h]⟩
    · obtain ⟨p, rest, hp⟩ := ih (c :: acc)
      refine ⟨c :: p, rest, ?_⟩
      simp only [splitGoAux, h, if_false]
      rw [hp]
      simp

theorem splitGo_cons (sep l : List Char) :
    ∃ p rest, splitGo sep l = p :: rest := by
  obtain ⟨p, rest, h⟩ := splitGoAux_shape sep l []
  exact ⟨p, rest, by simpa [splitGo] using h⟩

theorem splitGoAux_no_occurrence (sep : List Char) :
    ∀ (l acc : List Char), (∀ i, sep.isPrefixOf (l.drop i) = false) →
      splitGoAux sep acc 0 l = [acc.reverse ++ l] := by
  intro l
  induction l with
  | nil => intro acc _; simp [splitGoAux]
  | cons c ls ih =>
    intro acc hno
    have h0 : sep.isPrefixOf (c :: ls) = false := by simpa using hno 0
    have hrest : ∀ i, sep.isPrefixOf (ls.drop i) = false := by
      intro i
      simpa using hno (i + 1)
    simp only [splitGoAux, h0, Bool.false_eq_true, if_false]
    rw [ih (c :: acc) hrest]
    simp

theorem containsSub_false_no_occurrence {l sub : List Char}
    (h : containsSub l sub = false) (hne : sub ≠ []) :
    ∀ i, sub.isPrefixOf (l.drop i) = false := by
  intro i
  by_cases hi : i < l.length + 1
  · unfold containsSub at h
    have hall := List.any_eq_false.mp h
    have hne' := hall i (List.mem_range.mpr hi)
    cases hb : sub.isPrefixOf (l.drop i) with
    | false => rfl
    | true => exact absurd hb hne'
  · have hdrop : l.drop i = [] := by
      apply List.drop_eq_nil_of_le
      omega
    rw [hdrop]
    cases sub with
    | nil => exact absurd rfl hne
    | cons a as => rfl

theorem splitGo_no_occurrence {l sub : List Char}
    (h : containsSub l sub = false) (hne : sub ≠ []) :
    splitGo sub l = [l] := by
  have := splitGoAux_no_occurrence sub l [] (containsSub_false_no_occurrence h hne)
  simpa [splitGo] using this

theorem parseBlock_eq (b : List Char) :
    parseBlock b = if trimSpace b = [] then none else some (mkBlock b) := by
  by_cases h : trimSpace b = []
  · simp [parseBlock, h]
  · obtain ⟨p, rest, hsplit⟩ := splitGo_cons ['\n'] (trimSpace b)
    simp [parseBlock, mkBlock, h, hsplit, List.isEmpty_iff]

theorem filterMap_parseBlock (segs : List (List Char)) :
    segs.filterMap parseBlock =
      (segs.filter (fun b => !(trimSpace b).isEmpty)).map mkBlock := by
  induction segs with
  | nil => rfl
  | cons b rest ih =>
    by_cases h : trimSpace b = []
    · simp [List.filterMap_cons, List.filter_cons, parseBlock_eq, h, ih, List.isEmpty_iff]
    · simp [List.filterMap_cons, List.filter_cons, parseBlock_eq, h, ih, List.isEmpty_iff]

theorem mem_trimSpace_of_not_space {l : List Char} {x : Char}
    (hx : x ∈ l) (hs : goIsSpace x = false) : x ∈ trimSpace l := by
  have hm : x ∈ l.dropWhile goIsSpace := by
    have h0 : x ∈ l.takeWhile goIsSpace ++ l.dropWhile goIsSpace := by
      rw [List.takeWhile_append_dropWhile]
      exact hx
    rcases List.mem_append.mp h0 with h1 | h2
    · rw [List.mem_takeWhile_imp h1] at hs
      cases hs
    · exact h2
  have hmr : x ∈ (l.dropWhile goIsSpace).reverse := List.mem_reverse.mpr hm
  have h0 : x ∈ (l.dropWhile goIsSpace).reverse.takeWhile goIsSpace ++
      (l.dropWhile goIsSpace).reverse.dropWhile goIsSpace := by
    rw [List.takeWhile_append_dropWhile]
    exact hmr
  rcases List.mem_append.mp h0 with h1 | h2
  · rw [List.mem_takeWhile_imp h1] at hs
    cases hs
  · unfold trimSpace
    exact List.mem_reverse.mpr h2

theorem splitGo_head_of_not_prefix {sep : List Char} {c : Char} {ls : List Char}
    (h : ¬ sep.isPrefixOf (c :: ls) = true) :
    ∃ p rest, splitGo sep (c :: ls) = (c :: p) :: rest := by
  obtain ⟨p, rest, hp⟩ := splitGoAux_shape sep ls [c]
  refine ⟨p, rest, ?_⟩
  unfold splitGo
  simp only [splitGoAux, h, if_false]
  simpa using hp

theorem mkBlock_title_ne_nil {b : List Char} (h : trimSpace b ≠ []) :
    trimSpace (mkBlock b).title ≠ [] := by
  obtain ⟨c, ls, ht⟩ : ∃ c ls, trimSpace b = c :: ls := by
    cases hcase : trimSpace b with
    | nil => exact absurd hcase h
    | cons c ls => exact ⟨c, ls, rfl⟩
  have hc : goIsSpace c = false := trimSpace_head_not_space ht
  have hnp : ¬ List.isPrefixOf ['\n'] (c :: ls) = true := by
    intro hpre
    have hcn : '\n' = c := by
      simpa [List.isPrefixOf] using hpre
    rw [← hcn] at hc
    exact absurd hc (by decide)
  obtain ⟨p, rest, hsplit⟩ := splitGo_head_of_not_prefix hnp
  have htitle : (mkBlock b).title = trimSpace (c :: p) := by
    simp [mkBlock, ht, hsplit]
  rw [htitle]
  have hmem : c ∈ trimSpace (c :: p) :=
    mem_trimSpace_of_not_space (List.mem_cons_self c p) hc
  exact trimSpace_ne_nil_of_mem hmem hc

theorem mkBlock_description (b : List Char) :
    (mkBlock b).description =
      trimSpace (List.intercalate ['\n'] ((splitGo ['\n'] (trimSpace b)).tail)) := by
  unfold mkBlock
  by_cases h : (splitGo ['\n'] (trimSpace b)).tail.isEmpty
  · rw [List.isEmpty_iff] at h
    simp only [h, List.isEmpty_nil, if_true]
    rfl
  · simp [h]

/-- C1: for every input, `parse` returns (with no error) exactly one
TaskBlock per delimiter-separated segment that is non-empty after
trimming, in the order the segments appear in the source text, and every
returned TaskBlock has a non-empty title after trimming. -/
theorem spec_parse_wellformed (response : List Char) :
    ∃ ts, parseTasksFromResponse response = .ok ts ∧
      ts = ((splitGo taskDelimiter response).filter (fun b => !(trimSpace b).isEmpty)).map mkBlock ∧
      ∀ t ∈ ts, trimSpace t.title ≠ [] := by
  refine ⟨_, rfl, filterMap_parseBlock _, ?_⟩
  intro t ht
  rw [filterMap_parseBlock] at ht
  obtain ⟨b, hb, rfl⟩ := List.mem_map.mp ht
  have hbne : trimSpace b ≠ [] := by
    have := List.of_mem_filter hb
    simpa [List.isEmpty_iff] using this
  exact mkBlock_title_ne_nil hbne

/-- C7: an input with no occurrence of the delimiter that is not pure
white space parses to exactly one TaskBlock: its title is the trimmed
first line of the trimmed input, and its description is the remaining
lines rejoined with newlines and trimmed (the empty string when there are
no further lines, since joining no lines gives the empty string). -/
theorem spec_single_segment (response : List Char)
    (hnd : containsSub response taskDelimiter = false)
    (hne : trimSpace response ≠ []) :
    parseTasksFromResponse response =
      .ok [⟨trimSpace ((splitGo ['\n'] (trimSpace response)).headD []),
            trimSpace (List.intercalate ['\n'] ((splitGo ['\n'] (trimSpace response)).tail))⟩] := by
  have hsplit : splitGo taskDelimiter response = [response] :=
    splitGo_no_occurrence hnd (by decide)
  rw [parseTasksFromResponse, hsplit]
  rw [show List.filterMap parseBlock [response] = [mkBlock response] by
    rw [List.filterMap_cons, parseBlock_eq]
    simp [hne]]
  refine congrArg Except.ok (congrArg (fun x => [x]) ?_)
  have hd := mkBlock_description response
  calc mkBlock response = ⟨(mkBlock response).title, (mkBlock response).description⟩ := rfl
    _ = ⟨trimSpace ((splitGo ['\n'] (trimSpace response)).headD []),
         trimSpace (List.intercalate ['\n'] ((splitGo ['\n'] (trimSpace response)).tail))⟩ := by
        rw [hd]
        rfl

/-- Witness for C7, using the worked example of the spec: a three-line
response with no delimiter yields one TaskBlock whose title is the first
line and whose description is the remaining two lines joined by a
newline. -/
theorem spec_single_segment_witness :
    containsSub "Add retry\nImplement exponential backoff\nAdd unit test".data taskDelimiter = false ∧
    trimSpace "Add retry\nImplement exponential backoff\nAdd unit test".data ≠ [] ∧
    parseTasksFromResponse "Add retry\nImplement exponential backoff\nAdd unit test".data =
      .ok [⟨"Add retry".data, "Implement exponential backoff\nAdd unit test".data⟩] :=
  ⟨by decide, by decide,
    (spec_single_segment "Add retry\nImplement exponential backoff\nAdd unit test".data
      (by decide) (by decide)).trans (by decide)⟩

/-- C8: `parse` is total — it returns a sequence and a nil error on every
input — and both the empty string and a white-space-only string parse to
the empty sequence of TaskBlocks. -/
theorem spec_parse_total :
    (∀ response : List Char, ∃ ts, parseTasksFromResponse response = .ok ts) ∧
    parseTasksFromResponse [] = .ok [] ∧
    parseTasksFromResponse "   \n\n".data = .ok [] :=
  ⟨fun _ => ⟨_, rfl⟩, by decide, by decide⟩

theorem waitAux_match (readC : Nat → Except (List Char) (List (List Char))) (tag : List Char) :
    ∀ (d a r : Nat) (cs : List (List Char)) (c : List Char), d < r →
      (∀ i, a ≤ i → i < a + d →
        ∃ l, readC i = .ok l ∧ l.find? (fun x => containsSub x tag) = none) →
      readC (a + d) = .ok cs →
      cs.find? (fun x => containsSub x tag) = some c →
      waitForReplyAux readC tag a r = (.reply c, failedPolls d ++ [PollEvent.read]) := by
  intro d
  induction d with
  | zero =>
    intro a r cs c hdr hprev hread hfind
    cases r with
    | zero => omega
    | succ r' =>
      rw [Nat.add_zero] at hread
      simp [waitForReplyAux, hread, hfind, failedPolls]
  | succ d ih =>
    intro a r cs c hdr hprev hread hfind
    cases r with
    | zero => omega
    | succ r' =>
      obtain ⟨l, hl, hlnone⟩ := hprev a (le_refl a) (by omega)
      have hread' : readC (a + 1 + d) = .ok cs := by
        rw [show a + 1 + d = a + (d + 1) by omega]
        exact hread
      have hprev' : ∀ i, a + 1 ≤ i → i < a + 1 + d →
          ∃ l, readC i = .ok l ∧ l.find? (fun x => containsSub x tag) = none :=
        fun i h1 h2 => hprev i (by omega) (by omega)
      have hrec := ih (a + 1) r' cs c (by omega) hprev' hread' hfind
      simp [waitForReplyAux, hl, hlnone, hrec, failedPolls]

theorem waitAux_timeout (readC : Nat → Except (List Char) (List (List Char))) (tag : List Char) :
    ∀ (r a : Nat),
      (∀ i, a ≤ i → i < a + r →
        ∃ l, readC i = .ok l ∧ l.find? (fun x => containsSub x tag) = none) →
      waitForReplyAux readC tag a r =
        (.timeout ("reply with tag ".data ++ tag ++ " not received after polling".data),
         failedPolls r) := by
  intro r
  induction r with
  | zero => intro a _; simp [waitForReplyAux, failedPolls]
  | succ r' ih =>
    intro a hprev
    obtain ⟨l, hl, hlnone⟩ := hprev a (le_refl a) (by omega)
    have hrec := ih (a + 1) (fun i h1 h2 => hprev i (by omega) (by omega))
    simp [waitForReplyAux, hl, hlnone, hrec, failedPolls]

theorem waitAux_read_error (readC : Nat → Except (List Char) (List (List Char))) (tag : List Char) :
    ∀ (d a r : Nat) (e : List Char), d < r →
      (∀ i, a ≤ i → i < a + d →
        ∃ l, readC i = .ok l ∧ l.find? (fun x => containsSub x tag) = none) →
      readC (a + d) = .error e →
      waitForReplyAux readC tag a r =
        (.readFailed ("failed to read comments: ".data ++ e), failedPolls d ++ [PollEvent.read]) := by
  intro d
  induction d with
  | zero =>
    intro a r e hdr hprev hread
    cases r with
    | zero => omega
    | succ r' =>
      rw [Nat.add_zero] at hread
      simp [waitForReplyAux, hread, failedPolls]
  | succ d ih =>
    intro a r e hdr hprev hread
    cases r with
    | zero => omega
    | succ r' =>
      obtain ⟨l, hl, hlnone⟩ := hprev a (le_refl a) (by omega)
      have hread' : readC (a + 1 + d) = .error e := by
        rw [show a + 1 + d = a + (d + 1) by omega]
        exact hread
      have hrec := ih (a + 1) r' e (by omega)
        (fun i h1 h2 => hprev i (by omega) (by omega)) hread'
      simp [waitForReplyAux, hl, hlnone, hrec, failedPolls]

theorem waitAux_timeout_inv (readC : Nat → Except (List Char) (List (List Char))) (tag : List Char) :
    ∀ (r a : Nat) (m : List Char),
      (waitForReplyAux readC tag a r).1 = PollResult.timeout m →
      ∀ i, a ≤ i → i < a + r →
        ∃ l, readC i = .ok l ∧ l.find? (fun x => containsSub x tag) = none := by
  intro r
  induction r with
  | zero => intro a m _ i h1 h2; omega
  | succ r' ih =>
    intro a m htm i h1 h2
    cases hr : readC a with
    | error e => simp [waitForReplyAux, hr] at htm
    | ok l =>
      cases hf : l.find? (fun x => containsSub x tag) with
      | some c => simp [waitForReplyAux, hr, hf] at htm
      | none =>
        have htm' : (waitForReplyAux readC tag (a + 1) r').1 = PollResult.timeout m := by
          simpa [waitForReplyAux, hr, hf] using htm
        by_cases hia : i = a
        · exact hia ▸ ⟨l, hr, hf⟩
        · exact ih (a + 1) m htm' i (by omega) (by omega)

/-- C2: when the first poll iteration whose comment list contains the
required tag is iteration `k`, `WaitForReply` returns that iteration's
first matching comment in board order (`find?` takes the first match),
and its event trace is `k - 1` failed read-sleep rounds followed by one
final read — no further sleep or read happens after the match. -/
theorem spec_await_first_match (readC : Nat → Except (List Char) (List (List Char)))
    (tag : List Char) (k : Nat) (cs : List (List Char)) (c : List Char)
    (hk1 : 1 ≤ k) (hk : k ≤ waitMaxAttempts)
    (hprev : ∀ i, 1 ≤ i → i < k →
      ∃ l, readC i = .ok l ∧ l.find? (fun x => containsSub x tag) = none)
    (hread : readC k = .ok cs)
    (hfind : cs.find? (fun x => containsSub x tag) = some c) :
    waitForReply readC tag = (.reply c, failedPolls (k - 1) ++ [PollEvent.read]) := by
  have hmax : waitMaxAttempts = 100 := rfl
  show waitForReplyAux readC tag 1 waitMaxAttempts = _
  refine waitAux_match readC tag (k - 1) 1 waitMaxAttempts cs c (by omega) ?_ ?_ hfind
  · intro i hi1 hi2
    exact hprev i hi1 (by omega)
  · rw [show 1 + (k - 1) = k by omega]
    exact hread

/-- Witness for C2: a match already present on the first read is returned
immediately; with several matching comments in one read, the first in
board order wins, not the most recent. -/
theorem spec_await_first_match_witness :
    waitForReply
        (fun _ => .ok ["hello".data, "done @eng first".data, "done @eng second".data])
        "@eng".data =
      (.reply "done @eng first".data, [PollEvent.read]) := by
  have h := spec_await_first_match
    (fun _ => .ok ["hello".data, "done @eng first".data, "done @eng second".data])
    "@eng".data 1 ["hello".data, "done @eng first".data, "done @eng second".data]
    "done @eng first".data (by decide) (by decide)
    (fun i h1 h2 => absurd (Nat.lt_of_le_of_lt h1 h2) (Nat.lt_irrefl 1)) rfl (by decide)
  simpa [failedPolls] using h

/-- C3: when every read succeeds and none of the `waitMaxAttempts` comment
lists contains the required tag, `WaitForReply` fails with the timeout
error after exactly `waitMaxAttempts` reads, each followed by a sleep of
the poll interval (`failedPolls` alternates one read and one sleep of
`pollIntervalSeconds` per attempt). -/
theorem spec_await_timeout (readC : Nat → Except (List Char) (List (List Char))) (tag : List Char)
    (h : ∀ i, 1 ≤ i → i ≤ waitMaxAttempts →
      ∃ l, readC i = .ok l ∧ l.find? (fun x => containsSub x tag) = none) :
    waitForReply readC tag =
      (.timeout ("reply with tag ".data ++ tag ++ " not received after polling".data),
       failedPolls waitMaxAttempts) := by
  have hmax : waitMaxAttempts = 100 := rfl
  show waitForReplyAux readC tag 1 waitMaxAttempts = _
  exact waitAux_timeout readC tag waitMaxAttempts 1 (fun i h1 h2 => h i h1 (by omega))

/-- Witness for C3: a board whose comment list is always empty times out
with the full trace of one hundred read-sleep rounds. -/
theorem spec_await_timeout_witness :
    waitForReply (fun _ => .ok []) "@x".data =
      (.timeout ("reply with tag ".data ++ "@x".data ++ " not received after polling".data),
       failedPolls waitMaxAttempts) :=
  spec_await_timeout (fun _ => .ok []) "@x".data (fun _ _ _ => ⟨[], rfl, rfl⟩)

/-- C10: a failed comment read on attempt `j` makes `WaitForReply` return
that error wrapped, immediately: the trace ends at that read, with no
further sleep and none of the remaining attempts; and conversely the
timeout result only arises when all `waitMaxAttempts` reads succeed and
none of their comment lists contains the tag. -/
theorem spec_await_read_error (readC : Nat → Except (List Char) (List (List Char)))
    (tag : List Char) (j : Nat) (e : List Char)
    (hj1 : 1 ≤ j) (hj : j ≤ waitMaxAttempts)
    (hprev : ∀ i, 1 ≤ i → i < j →
      ∃ l, readC i = .ok l ∧ l.find? (fun x => containsSub x tag) = none)
    (herr : readC j = .error e) :
    waitForReply readC tag =
      (.readFailed ("failed to read comments: ".data ++ e), failedPolls (j - 1) ++ [PollEvent.read]) ∧
    ∀ (rc : Nat → Except (List Char) (List (List Char))) (m : List Char),
      (waitForReply rc tag).1 = PollResult.timeout m →
      ∀ i, 1 ≤ i → i ≤ waitMaxAttempts →
        ∃ l, rc i = .ok l ∧ l.find? (fun x => containsSub x tag) = none := by
  have hmax : waitMaxAttempts = 100 := rfl
  constructor
  · show waitForReplyAux readC tag 1 waitMaxAttempts = _
    refine waitAux_read_error readC tag (j - 1) 1 waitMaxAttempts e (by omega) ?_ ?_
    · intro i hi1 hi2
      exact hprev i hi1 (by omega)
    · rw [show 1 + (j - 1) = j by omega]
      exact herr
  · intro rc m htm i h1 h2
    exact waitAux_timeout_inv rc tag waitMaxAttempts 1 m htm i h1 (by omega)

/-- Witness for C10: a read failure on the very first attempt is returned
wrapped, after a single read and no sleep. -/
theorem spec_await_read_error_witness :
    waitForReply (fun _ => .error "boom".data) "@y".data =
      (.readFailed ("failed to read comments: ".data ++ "boom".data), [PollEvent.read]) := by
  have h := (spec_await_read_error (fun _ => .error "boom".data) "@y".data 1 "boom".data
    (by decide) (by decide)
    (fun i h1 h2 => absurd (Nat.lt_of_le_of_lt h1 h2) (Nat.lt_irrefl 1)) rfl).1
  simpa [failedPolls] using h

theorem createChildTickets_eq (create : TaskBlock → Except (List Char) Card) :
    ∀ tasks : List TaskBlock,
      createChildTickets create tasks =
        (tasks.filterMap (fun t => (create t).toOption), tasks) := by
  intro tasks
  induction tasks with
  | nil => rfl
  | cons t rest ih =>
    cases hc : create t with
    | error e => simp [createChildTickets, hc, ih, List.filterMap_cons, Except.toOption]
    | ok c => simp [createChildTickets, hc, ih, List.filterMap_cons, Except.toOption]

/-- C4: once the decomposition response is parsed and the Doing list id
resolved, each parsed TaskBlock is attempted exactly once, in source order
(the second component is the trace of attempted creations); the operation
returns, with no batch error, exactly the successfully created tickets in
order, each failing item being omitted and not retried; zero parsed
TaskBlocks give the empty result instead of a failure. -/
theorem spec_child_creation (lookup : Except (List Char) (List Char)) (listID : List Char)
    (create : List Char → TaskBlock → Except (List Char) Card)
    (response : List Char) (tasks : List TaskBlock)
    (hl : lookup = .ok listID)
    (hp : parseTasksFromResponse response = .ok tasks) :
    handleParsedTasks lookup create response =
      (.ok (tasks.filterMap (fun t => (create listID t).toOption)), tasks) := by
  simp [handleParsedTasks, hp, hl, createChildTickets_eq]

/-- Witness for C4: of two parsed tasks the first fails to create and the
second succeeds; the result is the one created ticket, no error, both
tasks attempted in order. -/
theorem spec_child_creation_witness :
    handleParsedTasks (.ok "doing".data)
        (fun _ t => if t.title = "A".data then .error "create failed".data
          else .ok ⟨"id2".data, t.title, t.description, "doing".data, []⟩)
        "A\nda\n@@@@\nB\ndb".data =
      (.ok [⟨"id2".data, "B".data, "db".data, "doing".data, []⟩],
       [⟨"A".data, "da".data⟩, ⟨"B".data, "db".data⟩]) := by
  have h := spec_child_creation (.ok "doing".data) "doing".data
    (fun _ t => if t.title = "A".data then .error "create failed".data
      else .ok ⟨"id2".data, t.title, t.description, "doing".data, []⟩)
    "A\nda\n@@@@\nB\ndb".data [⟨"A".data, "da".data⟩, ⟨"B".data, "db".data⟩] rfl (by decide)
  exact h.trans (by decide)

theorem foldl_guidance_no_match (listID : List Char) :
    ∀ (cards : List Card) (acc : List Char), (∀ card ∈ cards, card.idList ≠ listID) →
      cards.foldl
        (fun acc card => if card.idList = listID then acc ++ guidanceEntry card else acc)
        acc = acc := by
  intro cards
  induction cards with
  | nil => intro acc _; rfl
  | cons c rest ih =>
    intro acc hno
    have hc : c.idList ≠ listID := hno c (List.mem_cons_self c rest)
    simp only [List.foldl_cons, if_neg hc]
    exact ih acc (fun card hcard => hno card (List.mem_cons_of_mem c hcard))

/-- C9: with the IMPORTANT list id, the board and the card list all
readable, `LoadGuidanceTickets` returns success and sends no message to
the GPT client whenever no board card sits in that list; conversely any
message batch it sends implies at least one card sits in that list. -/
theorem spec_guidance_noop (env : GuidanceEnv) (listID : List Char) (cards : List Card)
    (hl : env.getListID = .ok listID) (hb : env.getBoard = .ok ())
    (hc : env.getCards = .ok cards) :
    ((∀ card ∈ cards, card.idList ≠ listID) → loadGuidanceTickets env = (.ok (), [])) ∧
    ((loadGuidanceTickets env).2 ≠ [] → ∃ card ∈ cards, card.idList = listID) := by
  constructor
  · intro hno
    simp [loadGuidanceTickets, hl, hb, hc, foldl_guidance_no_match listID cards guidanceHeader hno]
  · intro hsent
    by_contra hnone
    push_neg at hnone
    have heq := foldl_guidance_no_match listID cards guidanceHeader hnone
    apply hsent
    simp [loadGuidanceTickets, hl, hb, hc, heq]

/-- Witness for C9: an empty board sends nothing and succeeds. -/
theorem spec_guidance_noop_witness :
    loadGuidanceTickets ⟨.ok "L1".data, .ok (), .ok [], fun _ => .ok []⟩ = (.ok (), []) :=
  (spec_guidance_noop ⟨.ok "L1".data, .ok (), .ok [], fun _ => .ok []⟩ "L1".data [] rfl rfl rfl).1
    (fun card hcard => absurd hcard (List.not_mem_nil card))

/-- Environment exhibiting the silent swallowing of a member-resolution
error in the assignment scan: every `GetMember` call fails, yet the scan
reports no error. -/
def swallowEnv : AgentEnv :=
  ⟨fun _ => .error "member lookup failed".data, .ok (),
   .ok [⟨"c1".data, "T".data, "D".data, "L".data, ["m1".data]⟩], .ok ()⟩

/-- Counterexample to C5 as stated: on this board the single card has one
assigned member id whose resolution fails, yet `GetAssignedTickets`
returns a nil error and the empty list — the member-resolution failure is
silently ignored inside `TicketBelongsToMe`, not wrapped or propagated. -/
theorem spec_member_error_swallowed_cex :
    swallowEnv.getMember "m1".data = .error "member lookup failed".data ∧
    "m1".data ∈ (Card.mk "c1".data "T".data "D".data "L".data ["m1".data]).idMembers ∧
    swallowEnv.getCards = .ok [⟨"c1".data, "T".data, "D".data, "L".data, ["m1".data]⟩] ∧
    getAssignedTickets swallowEnv "alice".data = .ok [] := by
  refine ⟨rfl, by decide, rfl, by decide⟩

theorem scanAssigned_refresh_error (gm : List Char → Except (List Char) Member)
    (rc : Except (List Char) Unit) (name e : List Char) (hrc : rc = .error e) :
    ∀ (pre : List Card) (card : Card) (rest : List Card),
      (∀ c ∈ pre, ticketBelongsToMe gm name c = false) →
      ticketBelongsToMe gm name card = true →
      scanAssigned gm rc name (pre ++ card :: rest) true =
        .error ("failed to refresh context: ".data ++ e) := by
  intro pre
  induction pre with
  | nil =>
    intro card rest _ hcard
    simp [scanAssigned, hcard, hrc]
  | cons p ps ih =>
    intro card rest hpre hcard
    have hp : ticketBelongsToMe gm name p = false := hpre p (List.mem_cons_self p ps)
    simp only [List.cons_append, scanAssigned, hp, Bool.false_eq_true, if_false]
    exact ih card rest (fun c hc => hpre c (List.mem_cons_of_mem p hc)) hcard

/-- C5 amended: errors of the board fetch, the card listing and the lazy
context refresh are each wrapped with the operation name and propagated
by `GetAssignedTickets`; but a failure to resolve an assigned member id
during the scan is silently skipped — that member is treated as
non-matching and no error reaches the caller. -/
theorem spec_error_propagation (env : AgentEnv) (agentName : List Char) :
    (∀ e, env.getBoard = .error e →
      getAssignedTickets env agentName = .error ("failed to get board: ".data ++ e)) ∧
    (∀ e, env.getBoard = .ok () → env.getCards = .error e →
      getAssignedTickets env agentName = .error ("failed to get cards: ".data ++ e)) ∧
    (∀ e pre card rest, env.getBoard = .ok () → env.getCards = .ok (pre ++ card :: rest) →
      (∀ c ∈ pre, ticketBelongsToMe env.getMember agentName c = false) →
      ticketBelongsToMe env.getMember agentName card = true →
      env.refreshContext = .error e →
      getAssignedTickets env agentName = .error ("failed to refresh context: ".data ++ e)) ∧
    (∀ mid mids e, env.getMember mid = .error e →
      belongsAux env.getMember agentName (mid :: mids) =
        belongsAux env.getMember agentName mids) := by
  refine ⟨?_, ?_, ?_, ?_⟩
  · intro e hb
    simp [getAssignedTickets, hb]
  · intro e hb hc
    simp [getAssignedTickets, hb, hc]
  · intro e pre card rest hb hc hpre hcard hrc
    simp only [getAssignedTickets, hb, hc]
    exact scanAssigned_refresh_error env.getMember env.refreshContext agentName e hrc
      pre card rest hpre hcard
  · intro mid mids e hg
    simp [belongsAux, hg]

/-- Witness for the amended C5: each propagation case at a concrete
environment, plus the silent skip of a failing member resolution. -/
theorem spec_error_propagation_witness :
    getAssignedTickets ⟨fun _ => .ok ⟨"Bob".data⟩, .error "net down".data, .ok [], .ok ()⟩
        "alice".data = .error ("failed to get board: ".data ++ "net down".data) ∧
    getAssignedTickets ⟨fun _ => .ok ⟨"Bob".data⟩, .ok (), .error "cards bad".data, .ok ()⟩
        "alice".data = .error ("failed to get cards: ".data ++ "cards bad".data) ∧
    getAssignedTickets
        ⟨fun _ => .ok ⟨"Alice".data⟩, .ok (),
         .ok [⟨"c1".data, "T".data, "D".data, "L".data, ["m1".data]⟩], .error "git".data⟩
        "alice".data = .error ("failed to refresh context: ".data ++ "git".data) ∧
    belongsAux (fun _ => .error "gone".data) "alice".data ["m1".data] = false := by
  refine ⟨?_, ?_, ?_, ?_⟩
  · exact (spec_error_propagation
      ⟨fun _ => .ok ⟨"Bob".data⟩, .error "net down".data, .ok [], .ok ()⟩
      "alice".data).1 "net down".data rfl
  · exact (spec_error_propagation
      ⟨fun _ => .ok ⟨"Bob".data⟩, .ok (), .error "cards bad".data, .ok ()⟩
      "alice".data).2.1 "cards bad".data rfl rfl
  · exact (spec_error_propagation
      ⟨fun _ => .ok ⟨"Alice".data⟩, .ok (),
       .ok [⟨"c1".data, "T".data, "D".data, "L".data, ["m1".data]⟩], .error "git".data⟩
      "alice".data).2.2.1 "git".data []
      ⟨"c1".data, "T".data, "D".data, "L".data, ["m1".data]⟩ [] rfl rfl
      (fun c hc => absurd hc (List.not_mem_nil c)) (by decide) rfl
  · exact ((spec_error_propagation
      ⟨fun _ => .error "gone".data, .ok (), .ok [], .ok ()⟩
      "alice".data).2.2.2 "m1".data [] "gone".data rfl).trans rfl

theorem scanAssigned_filter (gm : List Char → Except (List Char) Member)
    (rc : Except (List Char) Unit) (name : List Char) (hrc : rc = .ok ()) :
    ∀ (cards : List Card) (flag : Bool),
      scanAssigned gm rc name cards flag =
        .ok (cards.filter (fun card => ticketBelongsToMe gm name card)) := by
  subst hrc
  intro cards
  induction cards with
  | nil => intro flag; rfl
  | cons card rest ih =>
    intro flag
    by_cases hc : ticketBelongsToMe gm name card
    · cases flag
      · simp [scanAssigned, hc, List.filter_cons, ih false, Except.map]
      · simp [scanAssigned, hc, List.filter_cons, ih false, Except.map]
    · simp [scanAssigned, hc, List.filter_cons, ih flag]

theorem belongsAux_iff (gm : List Char → Except (List Char) Member) (name : List Char) :
    ∀ mids : List (List Char), belongsAux gm name mids = true ↔
      ∃ mid ∈ mids, ∃ m, gm mid = .ok m ∧
        m.username.map Char.toLower = name.map Char.toLower := by
  intro mids
  induction mids with
  | nil => simp [belongsAux]
  | cons mid rest ih =>
    cases hg : gm mid with
    | error e =>
      have hstep : belongsAux gm name (mid :: rest) = belongsAux gm name rest := by
        simp [belongsAux, hg]
      rw [hstep, ih]
      constructor
      · rintro ⟨mid', hmem, m, hok, heq⟩
        exact ⟨mid', List.mem_cons_of_mem _ hmem, m, hok, heq⟩
      · rintro ⟨mid', hmem, m, hok, heq⟩
        rcases List.mem_cons.mp hmem with h | h
        · subst h
          rw [hg] at hok
          cases hok
        · exact ⟨mid', h, m, hok, heq⟩
    | ok m =>
      by_cases he : equalFold m.username name
      · constructor
        · intro _
          refine ⟨mid, List.mem_cons_self mid rest, m, hg, ?_⟩
          simpa [equalFold] using he
        · intro _
          simp [belongsAux, hg, he]
      · have hstep : belongsAux gm name (mid :: rest) = belongsAux gm name rest := by
          simp [belongsAux, hg, he]
        rw [hstep, ih]
        constructor
        · rintro ⟨mid', hmem, m', hok, heq⟩
          exact ⟨mid', List.mem_cons_of_mem _ hmem, m', hok, heq⟩
        · rintro ⟨mid', hmem, m', hok, heq⟩
          rcases List.mem_cons.mp hmem with h | h
          · subst h
            rw [hg] at hok
            injection hok with hmm
            subst hmm
            simp only [equalFold, beq_iff_eq] at he
            exact absurd heq he
          · exact ⟨mid', h, m', hok, heq⟩

/-- C6: when the board, card list and lazy refresh are all readable,
`GetAssignedTickets` returns exactly the board-order subset of cards that
belong to the agent, and a card belongs to the agent precisely when at
least one of its assigned member ids resolves to a member whose username
compares case-insensitively equal to the agent's name (a name differing
in anything but letter case is excluded). -/
theorem spec_assigned_filter (env : AgentEnv) (agentName : List Char) (cards : List Card)
    (hb : env.getBoard = .ok ()) (hc : env.getCards = .ok cards)
    (hr : env.refreshContext = .ok ()) :
    getAssignedTickets env agentName =
      .ok (cards.filter (fun card => ticketBelongsToMe env.getMember agentName card)) ∧
    ∀ card : Card, ticketBelongsToMe env.getMember agentName card = true ↔
      ∃ mid ∈ card.idMembers, ∃ m, env.getMember mid = .ok m ∧
        m.username.map Char.toLower = agentName.map Char.toLower := by
  constructor
  · simp [getAssignedTickets, hb, hc,
      scanAssigned_filter env.getMember env.refreshContext agentName hr cards true]
  · intro card
    exact belongsAux_iff env.getMember agentName card.idMembers

/-- Witness for C6: of two cards, the one whose member resolves to
username `ALICE` matches agent `alice` case-insensitively and is
returned; the one resolving to `Bob` is excluded. -/
theorem spec_assigned_filter_witness :
    getAssignedTickets
        ⟨fun mid => if mid = "m1".data then .ok ⟨"ALICE".data⟩ else .ok ⟨"Bob".data⟩,
         .ok (), .ok [⟨"c1".data, "t1".data, "d1".data, "L".data, ["m1".data]⟩,
                      ⟨"c2".data, "t2".data, "d2".data, "L".data, ["m2".data]⟩], .ok ()⟩
        "alice".data =
      .ok [⟨"c1".data, "t1".data, "d1".data, "L".data, ["m1".data]⟩] := by
  have h := (spec_assigned_filter
    ⟨fun mid => if mid = "m1".data then .ok ⟨"ALICE".data⟩ else .ok ⟨"Bob".data⟩,
     .ok (), .ok [⟨"c1".data, "t1".data, "d1".data, "L".data, ["m1".data]⟩,
                  ⟨"c2".data, "t2".data, "d2".data, "L".data, ["m2".data]⟩], .ok ()⟩
    "alice".data
    [⟨"c1".data, "t1".data, "d1".data, "L".data, ["m1".data]⟩,
     ⟨"c2".data, "t2".data, "d2".data, "L".data, ["m2".data]⟩] rfl rfl rfl).1
  exact h.trans (by decide)

